import Mathlib

/-!
Verification of the TinyVM LC-3 simulator (src/TinyVM/main.cpp) against its
natural-language specification.  The C++ source is shallowly embedded below:
16-bit machine words are `Nat` with explicit `% 65536` where the uint16_t arithmetic of the C code truncates, memory and the register file are functions
`Nat → Nat`, and the fetch-decode-execute loop of `main` is an explicit step
function on a `VMState` record.
-/

namespace TinyVM

/-! ### Constants, mirroring the enums of main.cpp -/

/-- MEMORY_MAX from main.cpp: number of 16-bit memory cells. -/
def MEMORY_MAX : Nat := 65536

/-- Register indices, from the register enum in main.cpp (R_R0 = 0 .. R_R7 = 7). -/
def R_PC : Nat := 8

/-- Index of the condition-flag register in the register array. -/
def R_COND : Nat := 9

/-- Opcode values from the opcode enum in main.cpp (top 4 bits of an instruction). -/
def OP_BR : Nat := 0

def OP_ADD : Nat := 1

def OP_LD : Nat := 2

def OP_ST : Nat := 3

def OP_JSR : Nat := 4

def OP_AND : Nat := 5

def OP_LDR : Nat := 6

def OP_STR : Nat := 7

def OP_RTI : Nat := 8

def OP_NOT : Nat := 9

def OP_LDI : Nat := 10

def OP_STI : Nat := 11

def OP_JMP : Nat := 12

def OP_RES : Nat := 13

def OP_LEA : Nat := 14

def OP_TRAP : Nat := 15

/-- Condition-flag values from main.cpp: FL_POS = 1 << 0. -/
def FL_POS : Nat := 1

/-- FL_ZRO = 1 << 1. -/
def FL_ZRO : Nat := 2

/-- FL_NEG = 1 << 2. -/
def FL_NEG : Nat := 4

/-- Memory-mapped keyboard status register address (MR_KBSR). -/
def MR_KBSR : Nat := 0xFE00

/-- Memory-mapped keyboard data register address (MR_KBDR). -/
def MR_KBDR : Nat := 0xFE02

/-- PC_START from main.cpp: execution begins at 0x3000. -/
def PC_START : Nat := 0x3000

/-! ### swap16 -/

/-- swap16 from main.cpp: `return (x << 8) | (x >> 8);` on a `uint16_t`,
so the 32-bit intermediate is truncated back to 16 bits on return. -/
def swap16 (x : Nat) : Nat := ((x <<< 8) ||| (x >>> 8)) % 65536

theorem swap16_eq (x : Nat) (hx : x < 65536) :
    swap16 x = (x % 256) * 256 + x / 256 := by
  have h1 : x <<< 8 = 2 ^ 8 * x := by rw [Nat.shiftLeft_eq]; ring
  have h2 : x >>> 8 = x / 2 ^ 8 := Nat.shiftRight_eq_div_pow x 8
  have h3 : x / 2 ^ 8 < 2 ^ 8 := by norm_num; omega
  have h4 : 2 ^ 8 * x + x / 2 ^ 8 = 2 ^ 8 * x ||| x / 2 ^ 8 :=
    Nat.mul_add_lt_is_or h3 x
  unfold swap16
  rw [h1, h2, ← h4]
  norm_num
  omega

theorem swap16_lt (x : Nat) : swap16 x < 65536 :=
  Nat.mod_lt _ (by norm_num)

theorem swap16_involution (x : Nat) (hx : x < 65536) :
    swap16 (swap16 x) = x := by
  rw [swap16_eq x hx, swap16_eq _ (by omega)]
  omega

/-! ### Memory access: mem_write / mem_read -/

/-- mem_write from main.cpp: `memory[address] = val;` — returns the updated
memory function. -/
def mem_write (mem : Nat → Nat) (address val : Nat) : Nat → Nat :=
  fun a => if a = address then val else mem a

/-- Memory after the side effects of mem_read from main.cpp.  The external
input collaborator (check_key / getchar) is modelled by `key`: `none` means
check_key returned 0, `some c` means a key is pending and getchar returns
the character code `c` (stored into the `uint16_t` cell, hence `% 65536`). -/
def mem_read_mem (key : Option Nat) (mem : Nat → Nat) (address : Nat) :
    Nat → Nat :=
  if address = MR_KBSR then
    match key with
    | some c => fun a =>
        if a = MR_KBDR then c % 65536
        else if a = MR_KBSR then 1 <<< 15
        else mem a
    | none => fun a => if a = MR_KBSR then 0 else mem a
  else mem

/-- Value returned by mem_read from main.cpp: `return memory[address];`,
read after the keyboard-poll side effects. -/
def mem_read (key : Option Nat) (mem : Nat → Nat) (address : Nat) : Nat :=
  mem_read_mem key mem address address

/-! ### Image loading (read_image_file / read_image) -/

/-- The raw copy performed by `fread(p, sizeof(uint16_t), max_read, file)` in
read_image_file: successive file words are stored in consecutive cells
starting at `p`. -/
def copyWords (mem : Nat → Nat) (p : Nat) : List Nat → (Nat → Nat)
  | [] => mem
  | w :: ws => copyWords (fun a => if a = p then w else mem a) (p + 1) ws

/-- The in-place endianness fix of read_image_file:
`while (read-- > 0) { *p = swap16(*p); p++; }`. -/
def swapRange (mem : Nat → Nat) (p : Nat) : Nat → (Nat → Nat)
  | 0 => mem
  | n + 1 => swapRange (fun a => if a = p then swap16 (mem p) else mem a) (p + 1) n

/-- read_image_file from main.cpp, at word granularity.  `file` is the list of
16-bit words of the image as `fread` delivers them on the little-endian host,
i.e. each big-endian file word arrives byte-swapped.  The code reads the first
word as the origin (byte-swapping it), computes
`uint16_t max_read = MEMORY_MAX - origin`, copies at most that many words to
`memory + origin`, then byte-swaps the copied range in place.  An empty file
leaves memory unchanged (the `fread` of the origin reads nothing and no words
are copied). -/
def read_image_file (mem : Nat → Nat) : List Nat → (Nat → Nat)
  | [] => mem
  | o :: rest =>
      swapRange
        (copyWords mem (swap16 o) (rest.take ((MEMORY_MAX - swap16 o) % 65536)))
        (swap16 o)
        (rest.take ((MEMORY_MAX - swap16 o) % 65536)).length

/-! ### Execution state and the main loop -/

/-- The mutable state of main: the global `memory` array, the global `reg`
array (indices 0..7 general purpose, 8 = PC, 9 = COND), and the local
`int running` of the execution loop. -/
structure VMState where
  memory : Nat → Nat
  reg : Nat → Nat
  running : Nat

/-- The switch statement of the execution loop in main.  Every case in the
source is an empty `break;` (OP_RES, OP_RTI and the default share a `break;`),
so every branch returns the state unchanged. -/
def execOp (op instr : Nat) (s : VMState) : VMState :=
  if op = OP_ADD then s
  else if op = OP_AND then s
  else if op = OP_NOT then s
  else if op = OP_BR then s
  else if op = OP_JMP then s
  else if op = OP_JSR then s
  else if op = OP_LD then s
  else if op = OP_LDI then s
  else if op = OP_LDR then s
  else if op = OP_LEA then s
  else if op = OP_ST then s
  else if op = OP_STI then s
  else if op = OP_STR then s
  else if op = OP_TRAP then s
  else s

/-- One iteration of the body of `while (running)` in main:
`uint16_t instr = mem_read(reg[R_PC]++); uint16_t op = instr >> 12;` followed
by the switch.  `reg[R_PC]++` passes the old PC to mem_read and increments the
`uint16_t` register, wrapping mod 2^16.  `key` is the keyboard
poll outcome of this iteration (only consulted when the fetch address is MR_KBSR). -/
def step (key : Option Nat) (s : VMState) : VMState :=
  let pc := s.reg R_PC
  let memAfter := mem_read_mem key s.memory pc
  let instr := memAfter pc
  let op := instr >>> 12
  execOp op instr
    { memory := memAfter
      reg := fun r => if r = R_PC then (pc + 1) % 65536 else s.reg r
      running := s.running }

/-- Iterates the execution loop `n` times, checking the `while (running)` guard
before each iteration.  `input` gives the keyboard-poll outcome for each
iteration index. -/
def runN (input : Nat → Option Nat) : Nat → VMState → VMState
  | 0, s => s
  | n + 1, s =>
      let t := runN input n s
      if t.running = 0 then t else step (input n) t

/-- The state of main just before the execution loop, given the memory left by
image loading: the global `reg` array is zero-initialised, then
`reg[R_COND] = FL_ZRO; reg[R_PC] = PC_START;` and `int running = 1;`. -/
def startState (mem : Nat → Nat) : VMState :=
  { memory := mem
    reg := fun r => if r = R_COND then FL_ZRO else if r = R_PC then PC_START else 0
    running := 1 }

/-! ### The argument-loading phase of main -/

/-- The image-loading loop of main.  Each entry of `files` is one
`argv[j]`: `none` models a path `fopen` cannot open (read_image returns 0),
`some ws` models a readable image with word list `ws`.  On the first
unreadable image main prints "failed to load image" and calls `exit(1)`,
modelled as `Except.error 1` carrying the exit status. -/
def load_images (mem : Nat → Nat) : List (Option (List Nat)) → Except Nat (Nat → Nat)
  | [] => Except.ok mem
  | Option.none :: _ => Except.error 1
  | Option.some ws :: rest => load_images (read_image_file mem ws) rest

/-- The setup phase of main.  With no image-path arguments at all, main
prints the usage line and calls `exit(2)` (the `argc < 2` check), modelled as
`Except.error 2`.  Otherwise the global `memory` array starts zeroed, every
image is loaded in order, and on success the registers are initialised and the
execution loop is about to start in `startState`.  Every error carries the
nonzero exit status of the corresponding `exit` call and means the loop is
never entered. -/
def main_setup (files : List (Option (List Nat))) : Except Nat VMState :=
  if files = [] then Except.error 2
  else
    match load_images (fun _ => 0) files with
    | Except.error c => Except.error c
    | Except.ok mem => Except.ok (startState mem)

/-! ### Specification-side definitions -/

/-- Modelled from the spec: the source never implements a decoder, so no
sign-extension routine exists in main.cpp (every opcode body is an empty
`break;`).  Section 4.4 of the spec defines the policy: given a field of width
`bit_count`, if bit `bit_count - 1` is 1 the value is extended by setting all
higher bits of the 16-bit word to 1, otherwise it is unchanged. -/
def sign_extend (x bit_count : Nat) : Nat :=
  if (x >>> (bit_count - 1)) &&& 1 = 1 then
    (x ||| (0xFFFF <<< bit_count)) % 65536
  else x

/-- Specification-side reading of an `n`-bit field as a twos-complement
integer: the field value minus 2^n when the sign bit (bit n-1) is set. -/
def twos_complement_value (x n : Nat) : Int :=
  if (x >>> (n - 1)) &&& 1 = 1 then (x : Int) - 2 ^ n else (x : Int)

/-- Specification-side condition-flag function (spec section 4.3): NEG if the
high bit of the 16-bit value is set, ZRO if it is zero, POS otherwise. -/
def spec_flag_of (v : Nat) : Nat :=
  if (v >>> 15) &&& 1 = 1 then FL_NEG
  else if v = 0 then FL_ZRO
  else FL_POS

/-! ### Concrete programs and states used to evaluate the code -/

/-- Memory image whose only nonzero cell is a HALT trap (0xF025) at the start
address: TRAP with vector 0x25. -/
def halt_program : Nat → Nat :=
  fun a => if a = 0x3000 then 0xF025 else 0

/-- Memory image with a RES-opcode word (top 4 bits 1101) at the start
address. -/
def res_program : Nat → Nat :=
  fun a => if a = 0x3000 then 0xD000 else 0

/-- Memory image with an RTI-opcode word (top 4 bits 1000) at the start
address. -/
def rti_program : Nat → Nat :=
  fun a => if a = 0x3000 then 0x8000 else 0

/-- Memory image with a TRAP instruction whose vector 0x26 is outside
0x20..0x25, at the start address. -/
def unknown_trap_program : Nat → Nat :=
  fun a => if a = 0x3000 then 0xF026 else 0

/-- Memory image whose first instruction is the ADD word 0x103F (a
flag-setting opcode). -/
def add_program : Nat → Nat :=
  fun a => if a = 0x3000 then 0x103F else 0

/-- An execution state about to fetch `ADD R0, R0, #-1` (0x103F: opcode 0001,
dst 000, src1 000, immediate bit 1, imm5 11111) with R0 holding 5. -/
def add_state : VMState :=
  { memory := fun a => if a = 0x3000 then 0x103F else 0
    reg := fun r =>
      if r = 0 then 5
      else if r = R_PC then 0x3000
      else if r = R_COND then FL_ZRO
      else 0
    running := 1 }

/-! ### Helper lemmas about the embedded code -/

theorem execOp_eq (op instr : Nat) (s : VMState) : execOp op instr s = s := by
  unfold execOp
  simp only [ite_self]

theorem step_eq (key : Option Nat) (s : VMState) :
    step key s =
      { memory := mem_read_mem key s.memory (s.reg R_PC)
        reg := fun r => if r = R_PC then (s.reg R_PC + 1) % 65536 else s.reg r
        running := s.running } := by
  unfold step
  rw [execOp_eq]

theorem step_running (key : Option Nat) (s : VMState) :
    (step key s).running = s.running := by
  rw [step_eq]

theorem step_pc (key : Option Nat) (s : VMState) :
    (step key s).reg R_PC = (s.reg R_PC + 1) % 65536 := by
  rw [step_eq]
  simp

theorem step_reg_of_ne (key : Option Nat) (s : VMState) (r : Nat) (h : r ≠ R_PC) :
    (step key s).reg r = s.reg r := by
  rw [step_eq]
  simp [h]

theorem mem_read_mem_of_ne (key : Option Nat) (mem : Nat → Nat) (address a : Nat)
    (h1 : a ≠ MR_KBSR) (h2 : a ≠ MR_KBDR) :
    mem_read_mem key mem address a = mem a := by
  unfold mem_read_mem
  split_ifs with h
  · cases key with
    | none => simp [h1]
    | some c => simp [h1, h2]
  · rfl

theorem step_memory_of_ne (key : Option Nat) (s : VMState) (a : Nat)
    (h1 : a ≠ MR_KBSR) (h2 : a ≠ MR_KBDR) :
    (step key s).memory a = s.memory a := by
  rw [step_eq]
  exact mem_read_mem_of_ne key s.memory _ a h1 h2

theorem runN_running (input : Nat → Option Nat) (n : Nat) (s : VMState) :
    (runN input n s).running = s.running := by
  induction n with
  | zero => rfl
  | succ n ih =>
      rw [runN]
      split_ifs with h
      · exact ih
      · rw [step_running]
        exact ih

theorem runN_reg_of_ne (input : Nat → Option Nat) (n : Nat) (s : VMState)
    (r : Nat) (h : r ≠ R_PC) :
    (runN input n s).reg r = s.reg r := by
  induction n with
  | zero => rfl
  | succ n ih =>
      rw [runN]
      split_ifs with hg
      · exact ih
      · rw [step_reg_of_ne _ _ _ h]
        exact ih

theorem runN_startState_pc (mem : Nat → Nat) (input : Nat → Option Nat) (n : Nat) :
    (runN input n (startState mem)).reg R_PC = (PC_START + n) % 65536 := by
  induction n with
  | zero =>
      show (startState mem).reg R_PC = (PC_START + 0) % 65536
      unfold startState R_PC R_COND PC_START
      norm_num
  | succ n ih =>
      rw [runN]
      split_ifs with h
      · rw [runN_running] at h
        exact absurd h (by unfold startState; simp)
      · rw [step_pc, ih]
        unfold PC_START
        omega

/-! ### Characterisations of the image-loading helpers -/

theorem copyWords_apply : ∀ (ws : List Nat) (mem : Nat → Nat) (p a : Nat),
    copyWords mem p ws a =
      if p ≤ a ∧ a < p + ws.length then ws.getD (a - p) 0 else mem a := by
  intro ws
  induction ws with
  | nil =>
      intro mem p a
      rw [copyWords, if_neg]
      simp only [List.length_nil]
      omega
  | cons w ws ih =>
      intro mem p a
      rw [copyWords, ih]
      simp only [List.length_cons]
      by_cases h1 : a = p
      · subst h1
        rw [if_neg (by omega), if_pos rfl, if_pos (by omega)]
        simp
      · by_cases h2 : p + 1 ≤ a ∧ a < p + 1 + ws.length
        · rw [if_pos h2, if_pos (by omega)]
          have ha : a - p = (a - (p + 1)) + 1 := by omega
          rw [ha, List.getD_cons_succ]
        · rw [if_neg h2, if_neg h1, if_neg (by omega)]

theorem swapRange_apply : ∀ (n : Nat) (mem : Nat → Nat) (p a : Nat),
    swapRange mem p n a =
      if p ≤ a ∧ a < p + n then swap16 (mem a) else mem a := by
  intro n
  induction n with
  | zero =>
      intro mem p a
      rw [swapRange, if_neg]
      omega
  | succ n ih =>
      intro mem p a
      rw [swapRange, ih]
      by_cases h1 : a = p
      · subst h1
        rw [if_neg (by omega), if_pos rfl, if_pos (by omega)]
      · by_cases h2 : p + 1 ≤ a ∧ a < p + 1 + n
        · rw [if_pos h2, if_neg h1, if_pos (by omega)]
        · rw [if_neg h2, if_neg h1, if_neg (by omega)]

theorem load_images_error (files : List (Option (List Nat))) :
    Option.none ∈ files → ∀ mem, load_images mem files = Except.error 1 := by
  induction files with
  | nil => intro h; exact absurd h (List.not_mem_nil _)
  | cons f rest ih =>
      intro h mem
      cases f with
      | none => rfl
      | some ws =>
          rw [load_images]
          exact ih (by simpa using h) _

theorem load_images_ok (files : List (Option (List Nat))) :
    Option.none ∉ files → ∀ mem, ∃ m, load_images mem files = Except.ok m := by
  induction files with
  | nil => intro _ mem; exact ⟨mem, rfl⟩
  | cons f rest ih =>
      intro h mem
      cases f with
      | none => exact absurd (List.mem_cons_self _ _) h
      | some ws =>
          rw [load_images]
          exact ih (fun hc => h (List.mem_cons_of_mem _ hc)) _

/-- Bitwise fact used for sign extension: or-ing an n-bit value with the mask
0xFFFF shifted left by n is plain addition, because the bit ranges are
disjoint. -/
theorem lor_high_bits (x n : Nat) (hx : x < 2 ^ n) :
    x ||| (0xFFFF <<< n) = 0xFFFF * 2 ^ n + x := by
  rw [Nat.shiftLeft_eq, Nat.lor_comm, Nat.mul_comm 0xFFFF (2 ^ n),
    ← Nat.mul_add_lt_is_or hx 0xFFFF]

/-! ### Claim theorems -/

/-- C1 (code evaluation): in the source the TRAP case of the switch is an
empty `break;`, so executing the HALT trap 0xF025 does not clear the running
flag.  Starting from a state whose instruction at PC_START is TRAP 0x25
(vector 0x25, opcode OP_TRAP), after every number of loop iterations the
running flag is still 1 and the PC has advanced by one per iteration, i.e.
further instructions keep being fetched — contradicting the claim that HALT
stops the loop. -/
theorem c1_halt_does_not_stop :
    mem_read Option.none halt_program PC_START = 0xF025 ∧
    0xF025 >>> 12 = OP_TRAP ∧
    0xF025 % 256 = 0x25 ∧
    ∀ n : Nat,
      (runN (fun _ => Option.none) n (startState halt_program)).running = 1 ∧
      (runN (fun _ => Option.none) n (startState halt_program)).reg R_PC =
        (PC_START + n) % 65536 := by
  refine ⟨by decide, by decide, by decide, fun n => ⟨?_, ?_⟩⟩
  · rw [runN_running]
    rfl
  · exact runN_startState_pc halt_program (fun _ => Option.none) n

/-- C2 (code evaluation): the source shares an empty `break;` between OP_RES,
OP_RTI and the default case, and the TRAP case is also empty, so a RES word
(0xD000), an RTI word (0x8000) and a TRAP with the unknown vector 0x26
(0xF026) are all executed silently: the running flag stays 1, no error is
signalled, and the loop continues to fetch the next instruction (the PC after
two iterations is PC_START + 2) — contradicting the claim that execution
halts with a reported error. -/
theorem c2_unsupported_silently_continues :
    (0xD000 >>> 12 = OP_RES ∧ 0x8000 >>> 12 = OP_RTI ∧ 0xF026 >>> 12 = OP_TRAP) ∧
    ((step Option.none (startState res_program)).running = 1 ∧
      (runN (fun _ => Option.none) 2 (startState res_program)).reg R_PC = 0x3002) ∧
    ((step Option.none (startState rti_program)).running = 1 ∧
      (runN (fun _ => Option.none) 2 (startState rti_program)).reg R_PC = 0x3002) ∧
    ((step Option.none (startState unknown_trap_program)).running = 1 ∧
      (runN (fun _ => Option.none) 2 (startState unknown_trap_program)).reg R_PC =
        0x3002) := by
  refine ⟨by decide, ⟨?_, ?_⟩, ⟨?_, ?_⟩, ⟨?_, ?_⟩⟩
  · rw [step_running]; rfl
  · exact runN_startState_pc res_program (fun _ => Option.none) 2
  · rw [step_running]; rfl
  · exact runN_startState_pc rti_program (fun _ => Option.none) 2
  · rw [step_running]; rfl
  · exact runN_startState_pc unknown_trap_program (fun _ => Option.none) 2

/-- C3 (code evaluation): the OP_ADD case of the switch is an empty `break;`.
From a state holding 5 in R0 and fetching 0x103F (ADD R0, R0 with immediate
bit set and imm5 = 0b11111), the destination register still holds 5 after the
step (not 4) and the condition flags still hold FL_ZRO (not FL_POS) —
contradicting the claimed ADD semantics. -/
theorem c3_add_not_implemented :
    mem_read Option.none add_state.memory (add_state.reg R_PC) = 0x103F ∧
    0x103F >>> 12 = OP_ADD ∧
    add_state.reg 0 = 5 ∧
    (step Option.none add_state).reg 0 = 5 ∧
    (step Option.none add_state).reg R_COND = FL_ZRO ∧
    (step Option.none add_state).reg 0 ≠ 4 ∧
    (step Option.none add_state).reg R_COND ≠ FL_POS := by
  decide

/-- C9: for every loaded image and every input stream the execution loop never
terminates — `int running = 1` at loop entry, one step never changes the
running field (every switch case is an empty break), and hence after any
number of iterations the `while (running)` guard still sees 1. -/
theorem c9_loop_never_terminates :
    ∀ (mem : Nat → Nat) (input : Nat → Option Nat) (n : Nat) (key : Option Nat)
      (s : VMState),
      (startState mem).running = 1 ∧
      (step key s).running = s.running ∧
      (runN input n (startState mem)).running = 1 := by
  intro mem input n key s
  refine ⟨rfl, step_running key s, ?_⟩
  rw [runN_running]
  rfl

/-- C10: one iteration of the execution loop changes at most the PC (which is
incremented by exactly 1 modulo 2^16) and the memory cells MR_KBSR / MR_KBDR
(written by the keyboard poll inside mem_read when the fetch address is the
status register); all other registers, all other memory cells, and the
running flag are unchanged. -/
theorem c10_step_frame :
    ∀ (key : Option Nat) (s : VMState),
      (step key s).reg R_PC = (s.reg R_PC + 1) % 65536 ∧
      (∀ r, r ≠ R_PC → (step key s).reg r = s.reg r) ∧
      (∀ a, a ≠ MR_KBSR → a ≠ MR_KBDR → (step key s).memory a = s.memory a) ∧
      (step key s).running = s.running :=
  fun key s =>
    ⟨step_pc key s, fun r h => step_reg_of_ne key s r h,
      fun a h1 h2 => step_memory_of_ne key s a h1 h2, step_running key s⟩

/-- Witness for C10 at a concrete state, register index and address. -/
theorem c10_step_frame_witness :
    (step Option.none add_state).reg R_PC = (add_state.reg R_PC + 1) % 65536 ∧
    ((0 : Nat) ≠ R_PC) ∧
    (step Option.none add_state).reg 0 = add_state.reg 0 ∧
    ((5 : Nat) ≠ MR_KBSR) ∧ ((5 : Nat) ≠ MR_KBDR) ∧
    (step Option.none add_state).memory 5 = add_state.memory 5 ∧
    (step Option.none add_state).running = add_state.running := by
  obtain ⟨h1, h2, h3, h4⟩ := c10_step_frame Option.none add_state
  exact ⟨h1, by decide, h2 0 (by decide), by decide, by decide,
    h3 5 (by decide) (by decide), h4⟩

/-- C4: in every reachable state, after executing an instruction whose opcode
is one of the flag-setting ones (ADD, AND, NOT, LD, LDI, LDR, LEA), the
condition-flag register holds exactly one of FL_POS / FL_ZRO / FL_NEG, and its
value equals the flag function of the spec applied to any general-purpose register
(in particular the destination register).  In this source every opcode body is
empty, so every reachable state keeps all general-purpose registers at 0 and
the condition register at FL_ZRO, which is exactly spec_flag_of 0. -/
theorem c4_flags_after_flag_setting :
    ∀ (mem : Nat → Nat) (input : Nat → Option Nat) (n : Nat) (key : Option Nat)
      (r : Nat),
      (mem_read key (runN input n (startState mem)).memory
            ((runN input n (startState mem)).reg R_PC)) >>> 12 = OP_ADD ∨
        (mem_read key (runN input n (startState mem)).memory
            ((runN input n (startState mem)).reg R_PC)) >>> 12 = OP_AND ∨
        (mem_read key (runN input n (startState mem)).memory
            ((runN input n (startState mem)).reg R_PC)) >>> 12 = OP_NOT ∨
        (mem_read key (runN input n (startState mem)).memory
            ((runN input n (startState mem)).reg R_PC)) >>> 12 = OP_LD ∨
        (mem_read key (runN input n (startState mem)).memory
            ((runN input n (startState mem)).reg R_PC)) >>> 12 = OP_LDI ∨
        (mem_read key (runN input n (startState mem)).memory
            ((runN input n (startState mem)).reg R_PC)) >>> 12 = OP_LDR ∨
        (mem_read key (runN input n (startState mem)).memory
            ((runN input n (startState mem)).reg R_PC)) >>> 12 = OP_LEA →
      r < 8 →
      ((step key (runN input n (startState mem))).reg R_COND = FL_POS ∨
        (step key (runN input n (startState mem))).reg R_COND = FL_ZRO ∨
        (step key (runN input n (startState mem))).reg R_COND = FL_NEG) ∧
      (step key (runN input n (startState mem))).reg R_COND =
        spec_flag_of ((step key (runN input n (startState mem))).reg r) := by
  intro mem input n key r _ hr
  have hcond : (runN input n (startState mem)).reg R_COND = FL_ZRO := by
    rw [runN_reg_of_ne _ _ _ _ (by unfold R_COND R_PC; omega)]
    rfl
  have hreg : (runN input n (startState mem)).reg r = 0 := by
    rw [runN_reg_of_ne _ _ _ _ (by unfold R_PC; omega)]
    show (if r = R_COND then FL_ZRO else if r = R_PC then PC_START else 0) = 0
    rw [if_neg (by unfold R_COND; omega), if_neg (by unfold R_PC; omega)]
  have hstepc : (step key (runN input n (startState mem))).reg R_COND = FL_ZRO := by
    rw [step_reg_of_ne _ _ _ (by unfold R_COND R_PC; omega)]
    exact hcond
  have hstepr : (step key (runN input n (startState mem))).reg r = 0 := by
    rw [step_reg_of_ne _ _ _ (by unfold R_PC; omega)]
    exact hreg
  refine ⟨Or.inr (Or.inl hstepc), ?_⟩
  rw [hstepc, hstepr]
  rfl

/-- Witness for C4: the reachable state after zero iterations on an image
whose first instruction is the ADD word 0x103F, with register index 0. -/
theorem c4_flags_witness :
    ((mem_read Option.none
          (runN (fun _ => Option.none) 0 (startState add_program)).memory
          ((runN (fun _ => Option.none) 0 (startState add_program)).reg R_PC))
            >>> 12 = OP_ADD) ∧
    (0 : Nat) < 8 ∧
    ((step Option.none (runN (fun _ => Option.none) 0 (startState add_program))).reg
          R_COND = FL_POS ∨
      (step Option.none (runN (fun _ => Option.none) 0 (startState add_program))).reg
          R_COND = FL_ZRO ∨
      (step Option.none (runN (fun _ => Option.none) 0 (startState add_program))).reg
          R_COND = FL_NEG) ∧
    (step Option.none (runN (fun _ => Option.none) 0 (startState add_program))).reg
        R_COND =
      spec_flag_of
        ((step Option.none
            (runN (fun _ => Option.none) 0 (startState add_program))).reg 0) := by
  have h := c4_flags_after_flag_setting add_program (fun _ => Option.none) 0
    Option.none 0 (Or.inl (by decide)) (by decide)
  exact ⟨by decide, by decide, h.1, h.2⟩

/-- C6: mem_read at the keyboard-status address polls the input collaborator —
with a pending character it stores 1 shifted left by 15 in the status cell and the
character code in the data cell and returns the (updated) status cell, with no
pending input it stores 0 in the status cell and returns it; any other address
is read back verbatim with no memory change, and mem_write stores its value
verbatim. -/
theorem c6_mem_access :
    ∀ (mem : Nat → Nat) (c address val : Nat),
      mem_read_mem (Option.some c) mem MR_KBSR MR_KBSR = 1 <<< 15 ∧
      mem_read_mem (Option.some c) mem MR_KBSR MR_KBDR = c % 65536 ∧
      mem_read (Option.some c) mem MR_KBSR = 1 <<< 15 ∧
      mem_read_mem Option.none mem MR_KBSR MR_KBSR = 0 ∧
      mem_read Option.none mem MR_KBSR = 0 ∧
      (address ≠ MR_KBSR →
        ∀ key, mem_read key mem address = mem address ∧
          mem_read_mem key mem address = mem) ∧
      mem_write mem address val address = val ∧
      (∀ b, b ≠ address → mem_write mem address val b = mem b) := by
  intro mem c address val
  refine ⟨?_, ?_, ?_, ?_, ?_, ?_, ?_, ?_⟩
  · simp [mem_read_mem, MR_KBSR, MR_KBDR]
  · simp [mem_read_mem, MR_KBSR, MR_KBDR]
  · simp [mem_read, mem_read_mem, MR_KBSR, MR_KBDR]
  · simp [mem_read_mem, MR_KBSR]
  · simp [mem_read, mem_read_mem, MR_KBSR]
  · intro h key
    constructor
    · show mem_read_mem key mem address address = mem address
      unfold mem_read_mem
      rw [if_neg h]
    · unfold mem_read_mem
      rw [if_neg h]
  · simp [mem_write]
  · intro b hb
    simp [mem_write, hb]

/-- Witness for C6 at a concrete memory, character, address and value. -/
theorem c6_mem_access_witness :
    mem_read (Option.some 65) (fun _ => 7) MR_KBSR = 1 <<< 15 ∧
    ((0x1234 : Nat) ≠ MR_KBSR) ∧
    mem_read Option.none (fun _ => 7) 0x1234 = 7 ∧
    mem_write (fun _ => 7) 0x1234 9 0x1234 = 9 ∧
    ((0 : Nat) ≠ 0x1234) ∧
    mem_write (fun _ => 7) 0x1234 9 0 = 7 := by
  obtain ⟨_, _, h3, _, _, h6, h7, h8⟩ := c6_mem_access (fun _ => 7) 65 0x1234 9
  exact ⟨h3, by decide, (h6 (by decide) Option.none).1, h7, by decide,
    h8 0 (by decide)⟩

/-- Counterexample to C8 as stated: at the empty list of image paths no image
is unreadable, yet main does not begin execution at 0x3000 — the `argc < 2`
check prints the usage line and exits with status 2 before the execution
loop, so setup yields no started state. -/
theorem c8_no_args_counterexample :
    Option.none ∉ ([] : List (Option (List Nat))) ∧
    main_setup ([] : List (Option (List Nat))) = Except.error 2 :=
  ⟨by simp, rfl⟩

/-- C8 (amended): with no image paths at all, main prints the usage line and
exits with status 2 before the execution loop; for every nonempty list of
image paths, if any image cannot be read main reports the failure and exits
with status 1 (nonzero) before the execution loop, and otherwise the loop
starts in a state whose PC is the fixed start address 0x3000. -/
theorem c8_load_failure_or_start :
    ∀ files : List (Option (List Nat)),
      (files = [] → main_setup files = Except.error 2 ∧ (2 : Nat) ≠ 0) ∧
      (files ≠ [] → Option.none ∈ files →
        main_setup files = Except.error 1 ∧ (1 : Nat) ≠ 0) ∧
      (files ≠ [] → Option.none ∉ files →
        ∃ mem, main_setup files = Except.ok (startState mem) ∧
          (startState mem).reg R_PC = 0x3000) := by
  intro files
  refine ⟨?_, ?_, ?_⟩
  · intro h
    subst h
    exact ⟨rfl, by decide⟩
  · intro hne h
    refine ⟨?_, by decide⟩
    unfold main_setup
    rw [if_neg hne, load_images_error files h]
  · intro hne h
    obtain ⟨m, hm⟩ := load_images_ok files h (fun _ => 0)
    refine ⟨m, ?_, ?_⟩
    · unfold main_setup
      rw [if_neg hne, hm]
    · show (if R_PC = R_COND then FL_ZRO else if R_PC = R_PC then PC_START else 0) =
        0x3000
      rw [if_neg (by unfold R_PC R_COND; omega), if_pos rfl]
      rfl

/-- Witness for C8: the empty argument list exits with status 2, a list
containing an unreadable image exits with status 1, and a list of readable
images starts at 0x3000. -/
theorem c8_load_failure_witness :
    (main_setup ([] : List (Option (List Nat))) = Except.error 2 ∧
      (2 : Nat) ≠ 0) ∧
    (([Option.some [], Option.none] : List (Option (List Nat))) ≠ [] ∧
      Option.none ∈ ([Option.some [], Option.none] : List (Option (List Nat))) ∧
      main_setup [Option.some [], Option.none] = Except.error 1) ∧
    (([Option.some [0x30, 0x48]] : List (Option (List Nat))) ≠ [] ∧
      Option.none ∉ ([Option.some [0x30, 0x48]] : List (Option (List Nat))) ∧
      ∃ mem, main_setup [Option.some [0x30, 0x48]] = Except.ok (startState mem) ∧
        (startState mem).reg R_PC = 0x3000) := by
  refine ⟨(c8_load_failure_or_start []).1 rfl, ⟨by simp, by simp, ?_⟩,
    ⟨by simp, by simp, ?_⟩⟩
  · exact ((c8_load_failure_or_start [Option.some [], Option.none]).2.1
      (by simp) (by simp)).1
  · exact (c8_load_failure_or_start [Option.some [0x30, 0x48]]).2.2
      (by simp) (by simp)

/-- C5 (spec-modelled, the source contains no decoder): for each field width
n in {5, 6, 9, 11}, sign extension of an n-bit field agrees with the
twos-complement interpretation of the field modulo 2^16, and in particular
the 5-bit field 0b10101 extends to 0xFFF5. -/
theorem c5_sign_extend_twos_complement :
    (∀ n, n ∈ ([5, 6, 9, 11] : List Nat) → ∀ x, x < 2 ^ n →
      (sign_extend x n : Int) = twos_complement_value x n % 65536) ∧
    sign_extend 0b10101 5 = 0xFFF5 := by
  constructor
  · intro n hn x hx
    have hn' : n = 5 ∨ n = 6 ∨ n = 9 ∨ n = 11 := by simpa using hn
    have ht : 2 ^ n ≤ 2048 := by
      rcases hn' with h | h | h | h <;> subst h <;> norm_num
    unfold sign_extend twos_complement_value
    split_ifs with h
    · rw [lor_high_bits x n hx]
      have hpow : ((2 : Int) ^ n) = ((2 ^ n : Nat) : Int) := by push_cast; ring
      rw [hpow]
      obtain ⟨t, h2⟩ : ∃ t, 2 ^ n = t := ⟨_, rfl⟩
      rw [h2] at hx ht ⊢
      omega
    · have hx2048 : x < 2048 := lt_of_lt_of_le hx ht
      omega
  · decide

/-- Witness for C5 at width 5 and field value 0b10101. -/
theorem c5_sign_extend_witness :
    ((5 : Nat) ∈ ([5, 6, 9, 11] : List Nat) ∧ (0b10101 : Nat) < 2 ^ 5) ∧
    (sign_extend 0b10101 5 : Int) = twos_complement_value 0b10101 5 % 65536 :=
  ⟨⟨by decide, by decide⟩,
    c5_sign_extend_twos_complement.1 5 (by decide) 0b10101 (by decide)⟩

/-- C7: loading, into zeroed memory, an image stream whose first big-endian
word is the origin 0x3000 followed by N data words (with 0x3000 + N within
memory) places the N words verbatim at 0x3000 .. 0x3000+N-1 and leaves every
other cell zero.  The stream is given as the words `fread` yields them on the
little-endian host, so the big-endian image with true word values
0x3000 :: ds arrives as `List.map swap16 (0x3000 :: ds)`, and the byte-swapping
in the loader recovers the true values. -/
theorem c7_image_round_trip :
    ∀ ds : List Nat, (∀ w ∈ ds, w < 65536) → 0x3000 + ds.length ≤ 65536 →
      ∀ a : Nat,
        read_image_file (fun _ => 0) (List.map swap16 (0x3000 :: ds)) a =
          if 0x3000 ≤ a ∧ a < 0x3000 + ds.length then ds.getD (a - 0x3000) 0
          else 0 := by
  intro ds hw hlen a
  have horigin : swap16 (swap16 0x3000) = 0x3000 :=
    swap16_involution 0x3000 (by norm_num)
  rw [List.map_cons, read_image_file, horigin]
  have hmax : (MEMORY_MAX - 0x3000) % 65536 = 53248 := by norm_num [MEMORY_MAX]
  rw [hmax]
  have htake : (List.map swap16 ds).take 53248 = List.map swap16 ds :=
    List.take_of_length_le (by rw [List.length_map]; omega)
  rw [htake, swapRange_apply, copyWords_apply, List.length_map]
  by_cases h : 0x3000 ≤ a ∧ a < 0x3000 + ds.length
  · rw [if_pos h, if_pos h, if_pos h]
    have hi : a - 0x3000 < ds.length := by omega
    rw [List.getD_eq_getElem _ _ (by rw [List.length_map]; exact hi),
      List.getElem_map, List.getD_eq_getElem _ _ hi]
    exact swap16_involution _ (hw _ (List.getElem_mem hi))
  · rw [if_neg h, if_neg h, if_neg h]

/-- Witness for C7: the two-word image [72, 65535] at origin 0x3000. -/
theorem c7_image_round_trip_witness :
    (∀ w ∈ ([72, 65535] : List Nat), w < 65536) ∧
    0x3000 + ([72, 65535] : List Nat).length ≤ 65536 ∧
    read_image_file (fun _ => 0) (List.map swap16 (0x3000 :: [72, 65535]))
        0x3000 = 72 ∧
    read_image_file (fun _ => 0) (List.map swap16 (0x3000 :: [72, 65535]))
        0x3001 = 65535 ∧
    read_image_file (fun _ => 0) (List.map swap16 (0x3000 :: [72, 65535]))
        0x2FFF = 0 := by
  have h := c7_image_round_trip [72, 65535] (by decide) (by decide)
  refine ⟨by decide, by decide, ?_, ?_, ?_⟩
  · have h1 := h 0x3000
    rw [if_pos (by constructor <;> norm_num)] at h1
    simpa using h1
  · have h1 := h 0x3001
    rw [if_pos (by constructor <;> norm_num)] at h1
    simpa using h1
  · have h1 := h 0x2FFF
    rw [if_neg (by norm_num)] at h1
    exact h1

end TinyVM
